import Mathlib

/-!
Shallow embedding of `visual_debug.py` (PPTAgent): a post-processing tool
that overlays bounding-box annotations onto rendered slide screenshots.

Geometry is modelled over `ℚ` (JSON numbers), images as functions from
pixel coordinates to RGBA values with natural-number channels, and the
drawing passes as pure functions producing lists of draw operations.
-/

/-- An RGBA color / pixel value; channels are bytes (0..255). -/
structure RGBA where
  r : ℕ
  g : ℕ
  b : ℕ
  a : ℕ
deriving DecidableEq

/-- Constant `BBOX_COLOR = (34, 197, 94, 255)` — green. -/
def BBOX_COLOR : RGBA := ⟨34, 197, 94, 255⟩

/-- Constant `SAFEBOX_COLOR = (249, 115, 22, 255)` — orange. -/
def SAFEBOX_COLOR : RGBA := ⟨249, 115, 22, 255⟩

/-- Constant `CONTENTBOX_COLOR = (236, 72, 153, 255)` — pink. -/
def CONTENTBOX_COLOR : RGBA := ⟨236, 72, 153, 255⟩

/-- Constant `OVERFLOW_COLOR = (239, 68, 68, 255)` — red. -/
def OVERFLOW_COLOR : RGBA := ⟨239, 68, 68, 255⟩

/-- Constant `OVERLAP_COLOR = (234, 179, 8, 180)` — yellow, semi-transparent. -/
def OVERLAP_COLOR : RGBA := ⟨234, 179, 8, 180⟩

/-- Constant `OOB_COLOR = (239, 68, 68, 255)` — red. -/
def OOB_COLOR : RGBA := ⟨239, 68, 68, 255⟩

/-- Constant `SUMMARY_BG = (0, 0, 0, 190)`. -/
def SUMMARY_BG : RGBA := ⟨0, 0, 0, 190⟩

/-- Constant `SUMMARY_FG = (255, 255, 255, 255)`. -/
def SUMMARY_FG : RGBA := ⟨255, 255, 255, 255⟩

/-- An axis-aligned rectangle `{x, y, w, h}` in image pixel coordinates. -/
structure Rect where
  x : ℚ
  y : ℚ
  w : ℚ
  h : ℚ
deriving DecidableEq

/-- Function `intersect_rects(a, b)`: intersection of two `{x,y,w,h}` dicts, or `None`
when the overlap has non-positive width or height. -/
def intersect_rects (a b : Rect) : Option Rect :=
  let x := max a.x b.x
  let y := max a.y b.y
  let right := min (a.x + a.w) (b.x + b.w)
  let bottom := min (a.y + a.h) (b.y + b.h)
  let w := right - x
  let h := bottom - y
  if w ≤ 0 ∨ h ≤ 0 then none else some ⟨x, y, w, h⟩

/-- C2: rectangle intersection is commutative: `intersect_rects a b`
equals `intersect_rects b a`, including when the result is `none`. -/
theorem intersect_rects_comm (a b : Rect) :
    intersect_rects a b = intersect_rects b a := by
  unfold intersect_rects
  rw [max_comm a.x, max_comm a.y, min_comm (a.x + a.w), min_comm (a.y + a.h)]

/-- C3: intersecting any rectangle with a rectangle of zero or negative
width or height yields `none` (no intersection). -/
theorem intersect_rects_degenerate (a b : Rect) (h : b.w ≤ 0 ∨ b.h ≤ 0) :
    intersect_rects a b = none := by
  unfold intersect_rects
  rw [if_pos]
  rcases h with h | h
  · left
    have h1 : min (a.x + a.w) (b.x + b.w) ≤ b.x + b.w := min_le_right _ _
    have h2 : b.x ≤ max a.x b.x := le_max_right _ _
    linarith
  · right
    have h1 : min (a.y + a.h) (b.y + b.h) ≤ b.y + b.h := min_le_right _ _
    have h2 : b.y ≤ max a.y b.y := le_max_right _ _
    linarith

/-- C3 witness: a concrete rectangle meeting a zero-width rectangle. -/
theorem intersect_rects_degenerate_witness :
    ((0 : ℚ) ≤ 0 ∨ (5 : ℚ) ≤ 0) ∧
      intersect_rects ⟨0, 0, 10, 10⟩ ⟨2, 2, 0, 5⟩ = none :=
  ⟨Or.inl le_rfl, intersect_rects_degenerate ⟨0, 0, 10, 10⟩ ⟨2, 2, 0, 5⟩
    (Or.inl le_rfl)⟩

/-- The `while pos < length` loop of `draw_dashed_line`, along the 1-D path
parameter (`pos` pixels from the start point; the 2-D point at parameter
`t` is `start + t • unit`, which does not affect the loop). The result
collects, for each iteration with `drawing` true, the pair
`(pos, end_pos)` of the emitted `draw.line` segment. `fuel` bounds the
number of iterations; `none` means the loop did not exit within `fuel`
iterations (used to reason about nontermination). -/
def dashLoop (onLen offLen L : ℚ) : ℕ → ℚ → Bool → Option (List (ℚ × ℚ))
  | 0, pos, _ => if pos < L then none else some []
  | fuel + 1, pos, drawing =>
    if pos < L then
      let seg := if drawing then onLen else offLen
      let endPos := min (pos + seg) L
      match dashLoop onLen offLen L fuel endPos (!drawing) with
      | none => none
      | some segs => some (if drawing then (pos, endPos) :: segs else segs)
    else some []

/-- Iteration budget sufficient for the loop when `onLen + offLen > 0`:
each pair of iterations advances `pos` by `onLen + offLen`. -/
def dashFuel (onLen offLen L : ℚ) : ℕ :=
  2 * (Rat.ceil (L / (onLen + offLen))).toNat + 1

/-- Function `draw_dashed_line(draw, start, end, fill, width, dash)`: with
`L = math.hypot(dx, dy)` the distance between the endpoints, returns the
drawn segments as `(pos, end_pos)` path intervals. Returns `some []`
without entering the loop when `L < 1`. -/
def draw_dashed_line (onLen offLen L : ℚ) : Option (List (ℚ × ℚ)) :=
  if L < 1 then some []
  else dashLoop onLen offLen L (dashFuel onLen offLen L) 0 true

theorem dashLoop_exit (onLen offLen L pos : ℚ) (h : ¬ pos < L)
    (drawing : Bool) (fuel : ℕ) :
    dashLoop onLen offLen L fuel pos drawing = some [] := by
  cases fuel with
  | zero => simp [dashLoop, h]
  | succ n =>
    unfold dashLoop
    rw [if_neg h]

theorem dashLoop_step_true (onLen offLen L : ℚ) (fuel : ℕ) (pos : ℚ)
    (segs : List (ℚ × ℚ)) (hpos : pos < L)
    (h : dashLoop onLen offLen L fuel (min (pos + onLen) L) false = some segs) :
    dashLoop onLen offLen L (fuel + 1) pos true =
      some ((pos, min (pos + onLen) L) :: segs) := by
  unfold dashLoop
  rw [if_pos hpos]
  simp [h]

theorem dashLoop_step_false (onLen offLen L : ℚ) (fuel : ℕ) (pos : ℚ)
    (segs : List (ℚ × ℚ)) (hpos : pos < L)
    (h : dashLoop onLen offLen L fuel (min (pos + offLen) L) true = some segs) :
    dashLoop onLen offLen L (fuel + 1) pos false = some segs := by
  unfold dashLoop
  rw [if_pos hpos]
  simp [h]

/-- Loop characterization: starting at position `k0 * (onLen + offLen)` in
the drawing phase with enough fuel, the loop terminates and the `j`-th
emitted segment runs from `(k0+j) * (onLen+offLen)` to
`min ((k0+j) * (onLen+offLen) + onLen) L`. -/
theorem dashLoop_spec (onLen offLen L : ℚ) (h1 : 0 ≤ onLen) (h2 : 0 ≤ offLen)
    (h3 : 0 < onLen + offLen) :
    ∀ N k0 : ℕ, L ≤ ((k0 + N : ℕ) : ℚ) * (onLen + offLen) →
    ∃ segs,
      dashLoop onLen offLen L (2 * N + 1) ((k0 : ℚ) * (onLen + offLen)) true
        = some segs ∧
      (∀ j, ∀ hj : j < segs.length, segs.get ⟨j, hj⟩ =
        (((k0 + j : ℕ) : ℚ) * (onLen + offLen),
         min (((k0 + j : ℕ) : ℚ) * (onLen + offLen) + onLen) L)) ∧
      (∀ j, j < segs.length → ((k0 + j : ℕ) : ℚ) * (onLen + offLen) < L) ∧
      L ≤ ((k0 + segs.length : ℕ) : ℚ) * (onLen + offLen) := by
  intro N
  induction N with
  | zero =>
    intro k0 hL
    push_cast at hL
    have hexit : ¬ ((k0 : ℚ) * (onLen + offLen) < L) := by
      push_cast
      linarith
    refine ⟨[], dashLoop_exit _ _ _ _ hexit _ _, ?_, ?_, ?_⟩
    · intro j hj
      simp at hj
    · intro j hj
      simp at hj
    · simp only [List.length_nil, Nat.add_zero]
      push_cast
      linarith
  | succ N ih =>
    intro k0 hL
    push_cast at hL
    by_cases hpos : (k0 : ℚ) * (onLen + offLen) < L
    · -- the loop body runs: one drawn step, then one skipped step
      have hstep : (2 * (N + 1) + 1) = (2 * N + 1) + 1 + 1 := by ring
      by_cases h4 : min ((k0 : ℚ) * (onLen + offLen) + onLen) L < L
      · -- the drawn step did not reach L
        have hon : (k0 : ℚ) * (onLen + offLen) + onLen < L := by
          by_contra hc
          push_neg at hc
          rw [min_eq_right hc] at h4
          exact lt_irrefl _ h4
        have hmin1 : min ((k0 : ℚ) * (onLen + offLen) + onLen) L =
            (k0 : ℚ) * (onLen + offLen) + onLen := min_eq_left hon.le
        by_cases h5 : ((k0 : ℚ) + 1) * (onLen + offLen) < L
        · -- the skipped step did not reach L either: recurse from k0 + 1
          obtain ⟨tail, htail, helem, hstart, hlen⟩ := ih (k0 + 1) (by push_cast; linarith)
          have htail2 : dashLoop onLen offLen L (2 * N + 1)
              (min ((k0 : ℚ) * (onLen + offLen) + onLen + offLen) L) true = some tail := by
            have : min ((k0 : ℚ) * (onLen + offLen) + onLen + offLen) L =
                ((k0 + 1 : ℕ) : ℚ) * (onLen + offLen) := by
              push_cast
              rw [min_eq_left (by linarith)]
              ring
            rw [this]
            exact htail
          have hrun : dashLoop onLen offLen L (2 * (N + 1) + 1)
              ((k0 : ℚ) * (onLen + offLen)) true =
              some (((k0 : ℚ) * (onLen + offLen),
                min ((k0 : ℚ) * (onLen + offLen) + onLen) L) :: tail) := by
            rw [hstep]
            refine dashLoop_step_true _ _ _ _ _ _ hpos ?_
            rw [hmin1]
            exact dashLoop_step_false _ _ _ _ _ _ (by linarith) htail2
          refine ⟨_, hrun, ?_, ?_, ?_⟩
          · intro j hj
            cases j with
            | zero => simp
            | succ j =>
              simp only [List.length_cons] at hj
              have hj2 : j < tail.length := Nat.lt_of_succ_lt_succ hj
              have := helem j hj2
              simp only [List.get_cons_succ]
              rw [this]
              have hcast : ((k0 + 1 + j : ℕ) : ℚ) = ((k0 + (j + 1) : ℕ) : ℚ) := by
                push_cast
                ring
              rw [hcast]
          · intro j hj
            cases j with
            | zero =>
              push_cast
              simpa using hpos
            | succ j =>
              simp only [List.length_cons] at hj
              have hj2 : j < tail.length := Nat.lt_of_succ_lt_succ hj
              have := hstart j hj2
              have hcast : ((k0 + 1 + j : ℕ) : ℚ) = ((k0 + (j + 1) : ℕ) : ℚ) := by
                push_cast
                ring
              rw [hcast] at this
              exact this
          · simp only [List.length_cons]
            have hcast : ((k0 + 1 + tail.length : ℕ) : ℚ) =
                ((k0 + (tail.length + 1) : ℕ) : ℚ) := by
              push_cast
              ring
            rw [hcast] at hlen
            exact hlen
        · -- the skipped step reached L: the loop then exits
          push_neg at h5
          have hrun : dashLoop onLen offLen L (2 * (N + 1) + 1)
              ((k0 : ℚ) * (onLen + offLen)) true =
              some [((k0 : ℚ) * (onLen + offLen),
                min ((k0 : ℚ) * (onLen + offLen) + onLen) L)] := by
            rw [hstep]
            refine dashLoop_step_true _ _ _ _ _ _ hpos ?_
            rw [hmin1]
            refine dashLoop_step_false _ _ _ _ _ _ (by linarith) ?_
            have hmin2 : min ((k0 : ℚ) * (onLen + offLen) + onLen + offLen) L = L := by
              rw [min_eq_right]
              calc L ≤ ((k0 : ℚ) + 1) * (onLen + offLen) := h5
                _ = (k0 : ℚ) * (onLen + offLen) + onLen + offLen := by ring
            rw [hmin2]
            exact dashLoop_exit _ _ _ _ (lt_irrefl L) _ _
          refine ⟨_, hrun, ?_, ?_, ?_⟩
          · intro j hj
            simp only [List.length_cons, List.length_nil] at hj
            interval_cases j
            simp
          · intro j hj
            simp only [List.length_cons, List.length_nil] at hj
            interval_cases j
            push_cast
            simpa using hpos
          · simp only [List.length_cons, List.length_nil]
            push_cast
            linarith
      · -- the very first drawn step reached L: the loop then exits
        push_neg at h4
        have hL1 : L ≤ (k0 : ℚ) * (onLen + offLen) + onLen := by
          rcases le_or_lt ((k0 : ℚ) * (onLen + offLen) + onLen) L with hc | hc
          · rw [min_eq_left hc] at h4
            linarith
          · linarith
        have hrun : dashLoop onLen offLen L (2 * (N + 1) + 1)
            ((k0 : ℚ) * (onLen + offLen)) true =
            some [((k0 : ℚ) * (onLen + offLen),
              min ((k0 : ℚ) * (onLen + offLen) + onLen) L)] := by
          rw [hstep]
          refine dashLoop_step_true _ _ _ _ _ _ hpos ?_
          exact dashLoop_exit _ _ _ _ (by simpa using h4) _ _
        refine ⟨_, hrun, ?_, ?_, ?_⟩
        · intro j hj
          simp only [List.length_cons, List.length_nil] at hj
          interval_cases j
          simp
        · intro j hj
          simp only [List.length_cons, List.length_nil] at hj
          interval_cases j
          push_cast
          simpa using hpos
        · simp only [List.length_cons, List.length_nil]
          push_cast
          linarith
    · -- already past the end: the loop exits at once
      push_neg at hpos
      refine ⟨[], dashLoop_exit _ _ _ _ (not_lt.mpr hpos) _ _, ?_, ?_, ?_⟩
      · intro j hj
        simp at hj
      · intro j hj
        simp at hj
      · simp only [List.length_nil, Nat.add_zero]
        push_cast
        linarith

/-- With a `(0, 0)` dash pattern, `pos` never advances: the loop body
leaves the state unchanged, so no fuel bound is ever enough. -/
theorem dashLoop_zero_dash (L : ℚ) (hL : 1 ≤ L) :
    ∀ (fuel : ℕ) (pos : ℚ) (drawing : Bool), pos < L →
      dashLoop 0 0 L fuel pos drawing = none := by
  intro fuel
  induction fuel with
  | zero =>
    intro pos drawing h
    simp [dashLoop, h]
  | succ n ih =>
    intro pos drawing h
    unfold dashLoop
    rw [if_pos h]
    simp only [ite_self, add_zero, min_eq_left h.le, ih pos (!drawing) h]

/-- Any rational is at most its (computable) ceiling. -/
theorem le_ratCeil (q : ℚ) : q ≤ ((Rat.ceil q : ℤ) : ℚ) := by
  unfold Rat.ceil
  split
  · next h =>
    conv_lhs => rw [← Rat.num_div_den q]
    rw [h]
    simp
  · have hq := Int.lt_floor_add_one q
    rw [Rat.floor_def] at hq
    push_cast
    linarith

/-- The fuel bound `dashFuel` is enough when `onLen + offLen > 0`. -/
theorem dashFuel_enough (onLen offLen L : ℚ) (h3 : 0 < onLen + offLen) :
    L ≤ (((Rat.ceil (L / (onLen + offLen))).toNat : ℕ) : ℚ) * (onLen + offLen) := by
  have hceil : L / (onLen + offLen) ≤ ((Rat.ceil (L / (onLen + offLen)) : ℤ) : ℚ) :=
    le_ratCeil _
  have htn : ((Rat.ceil (L / (onLen + offLen)) : ℤ) : ℚ) ≤
      (((Rat.ceil (L / (onLen + offLen))).toNat : ℕ) : ℚ) := by
    exact_mod_cast Int.self_le_toNat _
  exact (div_le_iff₀ h3).mp (le_trans hceil htn)

/-- C6: for nonnegative dash lengths with a positive period, the dashed
line draws nothing when the endpoint distance `L` is below one pixel, and
otherwise emits a nonempty list of drawn segments alternating with
skipped gaps: the `j`-th drawn segment runs along the path from
`j * (onLen + offLen)` to `min (j * (onLen + offLen) + onLen) L`, so the
drawing begins with a drawn segment at position `0` and consecutive drawn
segments are separated by `offLen`-long skipped gaps. -/
theorem draw_dashed_line_spec (onLen offLen L : ℚ) (h1 : 0 ≤ onLen)
    (h2 : 0 ≤ offLen) (h3 : 0 < onLen ∨ 0 < offLen) :
    (L < 1 → draw_dashed_line onLen offLen L = some []) ∧
    (1 ≤ L → ∃ segs, draw_dashed_line onLen offLen L = some segs ∧
      segs ≠ [] ∧
      (∀ j, ∀ hj : j < segs.length, segs.get ⟨j, hj⟩ =
        ((j : ℚ) * (onLen + offLen),
         min ((j : ℚ) * (onLen + offLen) + onLen) L)) ∧
      (∀ j, j < segs.length → (j : ℚ) * (onLen + offLen) < L) ∧
      L ≤ (segs.length : ℚ) * (onLen + offLen)) := by
  have h3' : 0 < onLen + offLen := by
    rcases h3 with h | h <;> linarith
  constructor
  · intro hless
    unfold draw_dashed_line
    rw [if_pos hless]
  · intro hge
    obtain ⟨segs, hrun, helem, hstart, hlen⟩ :=
      dashLoop_spec onLen offLen L h1 h2 h3' (Rat.ceil (L / (onLen + offLen))).toNat 0
        (by simpa using dashFuel_enough onLen offLen L h3')
    refine ⟨segs, ?_, ?_, ?_, ?_, ?_⟩
    · unfold draw_dashed_line dashFuel
      rw [if_neg (not_lt.mpr hge)]
      simpa using hrun
    · intro hnil
      rw [hnil] at hlen
      simp at hlen
      linarith
    · intro j hj
      have := helem j hj
      simpa using this
    · intro j hj
      have := hstart j hj
      simpa using this
    · simpa using hlen

/-- C6 witness: dash pattern `(6, 4)` over a path of length `10`. -/
theorem draw_dashed_line_spec_witness :
    ∃ segs, draw_dashed_line 6 4 10 = some segs ∧ segs ≠ [] ∧
      (∀ j, ∀ hj : j < segs.length, segs.get ⟨j, hj⟩ =
        ((j : ℚ) * (6 + 4), min ((j : ℚ) * (6 + 4) + 6) 10)) ∧
      (∀ j, j < segs.length → (j : ℚ) * (6 + 4) < 10) ∧
      (10 : ℚ) ≤ (segs.length : ℚ) * (6 + 4) :=
  (draw_dashed_line_spec 6 4 10 (by decide) (by decide)
    (Or.inl (by decide))).2 (by decide)

/-- C10: when both dash lengths are nonnegative and at least one is
positive, the dashed-line loop terminates for every path length; when
both are zero and the endpoints are at least one pixel apart, the loop
never terminates (no iteration budget ever makes it exit). -/
theorem draw_dashed_line_termination (onLen offLen L : ℚ) :
    (0 ≤ onLen → 0 ≤ offLen → (0 < onLen ∨ 0 < offLen) →
      (draw_dashed_line onLen offLen L).isSome = true) ∧
    (onLen = 0 → offLen = 0 → 1 ≤ L →
      ∀ fuel, dashLoop onLen offLen L fuel 0 true = none) := by
  constructor
  · intro h1 h2 h3
    have h3' : 0 < onLen + offLen := by
      rcases h3 with h | h <;> linarith
    by_cases hL : L < 1
    · unfold draw_dashed_line
      rw [if_pos hL]
      rfl
    · push_neg at hL
      obtain ⟨segs, hrun, -, -, -⟩ := dashLoop_spec onLen offLen L h1 h2 h3'
        (Rat.ceil (L / (onLen + offLen))).toNat 0
        (by simpa using dashFuel_enough onLen offLen L h3')
      unfold draw_dashed_line dashFuel
      rw [if_neg (not_lt.mpr hL)]
      simp only [Nat.cast_zero, zero_mul] at hrun
      rw [hrun]
      rfl
  · intro h0 h0' hL fuel
    subst h0
    subst h0'
    exact dashLoop_zero_dash L hL fuel 0 true (by linarith)

/-- C10 witness: pattern `(6, 4)` terminates on a length-10 path; pattern
`(0, 0)` never exits the loop on a length-10 path. -/
theorem draw_dashed_line_termination_witness :
    (draw_dashed_line 6 4 10).isSome = true ∧
      (∀ fuel, dashLoop 0 0 10 fuel 0 true = none) :=
  ⟨(draw_dashed_line_termination 6 4 10).1 (by decide) (by decide)
      (Or.inl (by decide)),
   (draw_dashed_line_termination 0 0 10).2 rfl rfl (by decide)⟩

/-- A slide: `dom["slide"]` with width and height. -/
structure Slide where
  w : ℚ
  h : ℚ
deriving DecidableEq

/-- An element of `dom["elements"]`: `eid`, `bbox`, `safeBox` (mandatory
keys) and an optional `contentBox` (read with `el.get("contentBox")`). -/
structure Element where
  eid : String
  bbox : Rect
  safeBox : Rect
  contentBox : Option Rect := none
deriving DecidableEq

/-- A parsed dom JSON: `{"slide": ..., "elements": [...]}`. -/
structure Dom where
  slide : Slide
  elements : List Element
deriving DecidableEq

/-- A defect dict. `type` is read as `d["type"]` (mandatory); the element
references are read with `.get(...)`, hence `Option`; `details_edge`
models `d["details"]["edge"]`, present on `out_of_bounds` defects per the
data schema. -/
structure Defect where
  type : String
  eid : Option String := none
  owner_eid : Option String := none
  other_eid : Option String := none
  details_edge : Option String := none
deriving DecidableEq

/-- The dict `diag["summary"]` with each field read via `.get`, hence `Option`. -/
structure Summary where
  defect_count : Option ℤ := none
  total_severity : Option ℤ := none
  warning_count : Option ℤ := none
  conflict_chain : Option (List String) := none
  chain_feasible : Option Bool := none
deriving DecidableEq

/-- A parsed diag JSON: defects read via `diag.get("defects", [])`,
summary via `diag.get("summary", {})`. -/
structure Diag where
  defects : List Defect := []
  summary : Summary := {}
deriving DecidableEq

/-- One drawing call issued on the overlay (an `ImageDraw` call with its
arguments; `dashedRect` stands for the `draw_dashed_rect` call). -/
inductive DrawOp where
  | solidRect (x y w h : ℚ) (outline : RGBA) (width : ℕ)
  | dashedRect (x y w h : ℚ) (fill : RGBA) (width : ℕ) (dashOn dashOff : ℚ)
  | filledRect (x y w h : ℚ) (fill : RGBA)
  | line (x1 y1 x2 y2 : ℚ) (fill : RGBA) (width : ℕ)
  | text (x y : ℚ) (s : String) (fill : RGBA)
deriving DecidableEq

/-- The per-element `has_overflow` flag of `render_debug`: with
diagnostics present, true iff some defect has type `content_overflow`
and references the element by `eid` or `owner_eid`. -/
def has_overflow (diag : Option Diag) (eid : String) : Bool :=
  match diag with
  | none => false
  | some dg => dg.defects.any fun d =>
      d.type == "content_overflow" &&
        (d.eid == some eid || d.owner_eid == some eid)

/-- The `if "bbox" in layers` solid-outline call for one element. -/
def bboxOps (layers : List String) (el : Element) : List DrawOp :=
  if "bbox" ∈ layers then
    [DrawOp.solidRect el.bbox.x el.bbox.y el.bbox.w el.bbox.h BBOX_COLOR 1]
  else []

/-- The `if "safeBox" in layers` dashed-outline call for one element. -/
def safeBoxOps (layers : List String) (el : Element) : List DrawOp :=
  if "safeBox" ∈ layers then
    [DrawOp.dashedRect el.safeBox.x el.safeBox.y el.safeBox.w el.safeBox.h
      SAFEBOX_COLOR 1 6 3]
  else []

/-- The `if "contentBox" in layers and content` dashed-outline call for
one element: red width-2 outline when `has_overflow`, else pink width-1. -/
def contentBoxOps (layers : List String) (diag : Option Diag) (el : Element) :
    List DrawOp :=
  let ho := has_overflow diag el.eid
  if "contentBox" ∈ layers then
    match el.contentBox with
    | some c =>
        [DrawOp.dashedRect c.x c.y c.w c.h
          (if ho then OVERFLOW_COLOR else CONTENTBOX_COLOR)
          (if ho then 2 else 1) 3 2]
    | none => []
  else []

/-- The `if "bbox" in layers` eid label call for one element. -/
def labelOps (layers : List String) (el : Element) : List DrawOp :=
  if "bbox" ∈ layers then
    [DrawOp.text (el.bbox.x + 2) (el.bbox.y - 12) el.eid BBOX_COLOR]
  else []

/-- All drawing calls made for one element in the per-element loop of
`render_debug`, in source order. -/
def elementOps (layers : List String) (diag : Option Diag) (el : Element) :
    List DrawOp :=
  bboxOps layers el ++ safeBoxOps layers el ++ contentBoxOps layers diag el ++
    labelOps layers el

/-- The dict `elements_by_eid = {el["eid"]: el for el in dom["elements"]}` followed
by `.get(k)`: with duplicate eids the later element wins, as in the dict
build. -/
def lookupEid (els : List Element) (k : String) : Option Element :=
  els.reverse.find? fun el => el.eid == k

/-- Python `a or b` on optional strings: `a` unless it is falsy (absent /
`None`, or the empty string). -/
def pyTruthyOr (a b : Option String) : Option String :=
  match a with
  | none => b
  | some s => if s = "" then b else some s

/-- The overlap-zone annotation for one defect: when both referenced
elements resolve and their safe boxes intersect, a yellow fill over the
intersection. -/
def overlapOps (els : List Element) (d : Defect) : List DrawOp :=
  if d.type = "overlap" then
    match d.owner_eid.bind (lookupEid els), d.other_eid.bind (lookupEid els) with
    | some owner, some other =>
        match intersect_rects owner.safeBox other.safeBox with
        | some inter =>
            [DrawOp.filledRect inter.x inter.y inter.w inter.h OVERLAP_COLOR]
        | none => []
    | _, _ => []
  else []

/-- The content-overflow tint for one defect:
`eid = defect.get("eid") or defect.get("owner_eid")`, then fill the
resolved element's full bbox with the translucent tint `(239,68,68,30)`;
no call when the reference does not resolve. -/
def overflowTintOps (els : List Element) (d : Defect) : List DrawOp :=
  if d.type = "content_overflow" then
    match (pyTruthyOr d.eid d.owner_eid).bind (lookupEid els) with
    | some el =>
        [DrawOp.filledRect el.bbox.x el.bbox.y el.bbox.w el.bbox.h
          ⟨239, 68, 68, 30⟩]
    | none => []
  else []

/-- The out-of-bounds annotation for one defect: a width-3 line along the
named slide edge; other edge names draw nothing. -/
def oobOps (slide : Slide) (d : Defect) : List DrawOp :=
  if d.type = "out_of_bounds" then
    match d.details_edge with
    | some "left" => [DrawOp.line 0 0 0 slide.h OOB_COLOR 3]
    | some "right" =>
        [DrawOp.line (slide.w - 1) 0 (slide.w - 1) slide.h OOB_COLOR 3]
    | some "top" => [DrawOp.line 0 0 slide.w 0 OOB_COLOR 3]
    | some "bottom" =>
        [DrawOp.line 0 (slide.h - 1) slide.w (slide.h - 1) OOB_COLOR 3]
    | _ => []
  else []

/-- Format a `summary.get(..., "?")` integer as the f-string does. -/
def fmtIntOpt : Option ℤ → String
  | some n => toString n
  | none => "?"

/-- Format `summary.get("chain_feasible", "?")` as the f-string does. -/
def fmtBoolOpt : Option Bool → String
  | some true => "True"
  | some false => "False"
  | none => "?"

/-- The text lines of the summary panel; the chain line appears only when
`conflict_chain` is present and nonempty (Python truthiness). -/
def summaryLines (s : Summary) : List String :=
  let l1 := "Defects: " ++ fmtIntOpt s.defect_count ++ "  Severity: " ++
    fmtIntOpt s.total_severity ++ "  Warnings: " ++ fmtIntOpt s.warning_count
  match s.conflict_chain with
  | some (c :: cs) =>
      [l1, "Chain: " ++ String.intercalate " → " (c :: cs) ++
        "  (feasible: " ++ fmtBoolOpt s.chain_feasible ++ ")"]
  | _ => [l1]

/-- The summary panel drawing calls: dark background box sized from the
longest line (7 px per character plus padding), then one text call per
line. -/
def summaryOps (s : Summary) : List DrawOp :=
  let lines := summaryLines s
  let boxW := (lines.map String.length).foldl max 0 * 7 + 16
  let boxH := lines.length * 16 + 16
  DrawOp.filledRect 4 4 (boxW : ℚ) (boxH : ℚ) SUMMARY_BG ::
    lines.enum.map fun p =>
      DrawOp.text 12 ((12 : ℚ) + (p.1 : ℚ) * 16) p.2 SUMMARY_FG

/-- All overlay drawing calls of `render_debug`: the per-element box
layers for every element, then — only when diagnostics are supplied —
the per-defect annotations (overlap fills, overflow tints, out-of-bounds
edge lines) and the summary panel. -/
def render_debug_ops (dom : Dom) (diag : Option Diag) (layers : List String) :
    List DrawOp :=
  (dom.elements.bind (elementOps layers diag)) ++
  (match diag with
   | none => []
   | some dg =>
       (dg.defects.bind fun d =>
         overlapOps dom.elements d ++ overflowTintOps dom.elements d ++
           oobOps dom.slide d) ++
       summaryOps dg.summary)

/-- An image as a function from pixel coordinates to RGBA values. -/
def Image : Type := ℕ → ℕ → RGBA

/-- The transparent overlay `Image.new("RGBA", base.size, (0, 0, 0, 0))`. -/
def blankOverlay : Image := fun _ _ => ⟨0, 0, 0, 0⟩

/-- Pillow's `SHIFTFORDIV255(a) = ((a >> 8) + a) >> 8`. -/
def shiftForDiv255 (n : ℕ) : ℕ := ((n >>> 8) + n) >>> 8

/-- One pixel of Pillow's `Image.alpha_composite(dst, src)` (the integer
implementation with 7 precision bits); a fully transparent source pixel
copies the destination pixel unchanged. -/
def alphaCompositePixel (dst src : RGBA) : RGBA :=
  if src.a = 0 then dst
  else
    let blend := dst.a * (255 - src.a)
    let outa255 := src.a * 255 + blend
    let coef1 := src.a * 255 * 255 * 128 / outa255
    let coef2 := 255 * 128 - coef1
    ⟨shiftForDiv255 (src.r * coef1 + dst.r * coef2 + 128 * 128) >>> 7,
     shiftForDiv255 (src.g * coef1 + dst.g * coef2 + 128 * 128) >>> 7,
     shiftForDiv255 (src.b * coef1 + dst.b * coef2 + 128 * 128) >>> 7,
     shiftForDiv255 (outa255 + 128)⟩

/-- Pillow `Image.alpha_composite(base, overlay)`, pixelwise. -/
def alpha_composite (dst src : Image) : Image :=
  fun px py => alphaCompositePixel (dst px py) (src px py)

/-- C1: for a document with no elements and no diagnostics report,
`render_debug` issues no drawing call, so — whatever rasterization the
individual draw calls would perform — the overlay stays fully
transparent and compositing it over the base changes no pixel: the
output image is pixel-identical to the input base image. -/
theorem render_debug_empty_identity (dom : Dom) (layers : List String)
    (applyOp : DrawOp → Image → Image) (base : Image)
    (h : dom.elements = []) (px py : ℕ) :
    alpha_composite base
      ((render_debug_ops dom none layers).foldl (fun ov op => applyOp op ov)
        blankOverlay) px py = base px py := by
  have hops : render_debug_ops dom none layers = [] := by
    simp [render_debug_ops, h]
  rw [hops]
  simp [List.foldl, alpha_composite, alphaCompositePixel, blankOverlay]

/-- C1 witness: an empty document over a constant base image. -/
theorem render_debug_empty_identity_witness :
    alpha_composite (fun _ _ => ⟨7, 8, 9, 255⟩)
      ((render_debug_ops ⟨⟨100, 100⟩, []⟩ none
          ["bbox", "safeBox", "contentBox"]).foldl
        (fun ov op => (fun _ o => o : DrawOp → Image → Image) op ov)
        blankOverlay) 0 0 = (⟨7, 8, 9, 255⟩ : RGBA) :=
  render_debug_empty_identity ⟨⟨100, 100⟩, []⟩ ["bbox", "safeBox", "contentBox"]
    (fun _ o => o) (fun _ _ => ⟨7, 8, 9, 255⟩) rfl 0 0

/-- The boolean `has_overflow` check agrees with the existential
"some defect has type `content_overflow` and references the element". -/
theorem has_overflow_iff (dg : Diag) (eid : String) :
    has_overflow (some dg) eid = true ↔
      ∃ d ∈ dg.defects, d.type = "content_overflow" ∧
        (d.eid = some eid ∨ d.owner_eid = some eid) := by
  simp [has_overflow, List.any_eq_true]

theorem mem_bboxOps {layers : List String} {el : Element} {op : DrawOp}
    (h : op ∈ bboxOps layers el) :
    op = DrawOp.solidRect el.bbox.x el.bbox.y el.bbox.w el.bbox.h BBOX_COLOR 1 := by
  unfold bboxOps at h
  split at h
  · simpa using h
  · simp at h

theorem mem_safeBoxOps {layers : List String} {el : Element} {op : DrawOp}
    (h : op ∈ safeBoxOps layers el) :
    op = DrawOp.dashedRect el.safeBox.x el.safeBox.y el.safeBox.w el.safeBox.h
      SAFEBOX_COLOR 1 6 3 := by
  unfold safeBoxOps at h
  split at h
  · simpa using h
  · simp at h

theorem mem_labelOps {layers : List String} {el : Element} {op : DrawOp}
    (h : op ∈ labelOps layers el) :
    op = DrawOp.text (el.bbox.x + 2) (el.bbox.y - 12) el.eid BBOX_COLOR := by
  unfold labelOps at h
  split at h
  · simpa using h
  · simp at h

/-- C4: with diagnostics supplied and the `contentBox` layer selected, an
element's contentBox dashed outline is drawn in the overflow color with
width 2 exactly when some `content_overflow` defect references the
element by `eid` or `owner_eid`; with no such defect it is drawn in the
default content color with width 1 (and the other variant is not drawn). -/
theorem contentBox_overflow_highlight (layers : List String) (dg : Diag)
    (el : Element) (c : Rect) (hc : el.contentBox = some c)
    (hl : "contentBox" ∈ layers) :
    ((∃ d ∈ dg.defects, d.type = "content_overflow" ∧
        (d.eid = some el.eid ∨ d.owner_eid = some el.eid)) →
      DrawOp.dashedRect c.x c.y c.w c.h OVERFLOW_COLOR 2 3 2 ∈
          elementOps layers (some dg) el ∧
        DrawOp.dashedRect c.x c.y c.w c.h CONTENTBOX_COLOR 1 3 2 ∉
          elementOps layers (some dg) el) ∧
    ((¬ ∃ d ∈ dg.defects, d.type = "content_overflow" ∧
        (d.eid = some el.eid ∨ d.owner_eid = some el.eid)) →
      DrawOp.dashedRect c.x c.y c.w c.h CONTENTBOX_COLOR 1 3 2 ∈
          elementOps layers (some dg) el ∧
        DrawOp.dashedRect c.x c.y c.w c.h OVERFLOW_COLOR 2 3 2 ∉
          elementOps layers (some dg) el) := by
  constructor
  · intro hex
    have hb : has_overflow (some dg) el.eid = true :=
      (has_overflow_iff dg el.eid).mpr hex
    constructor
    · have hmem : DrawOp.dashedRect c.x c.y c.w c.h OVERFLOW_COLOR 2 3 2 ∈
          contentBoxOps layers (some dg) el := by
        simp [contentBoxOps, hl, hc, hb]
      unfold elementOps
      exact List.mem_append.mpr (Or.inl (List.mem_append.mpr (Or.inr hmem)))
    · intro hmem
      unfold elementOps at hmem
      rw [List.mem_append, List.mem_append, List.mem_append] at hmem
      rcases hmem with ((h1 | h2) | h3) | h4
      · have := mem_bboxOps h1
        simp at this
      · have := mem_safeBoxOps h2
        simp [SAFEBOX_COLOR, CONTENTBOX_COLOR] at this
      · simp [contentBoxOps, hl, hc, hb] at h3
      · have := mem_labelOps h4
        simp at this
  · intro hex
    have hb : has_overflow (some dg) el.eid = false := by
      rw [← Bool.not_eq_true]
      intro hh
      exact hex ((has_overflow_iff dg el.eid).mp hh)
    constructor
    · have hmem : DrawOp.dashedRect c.x c.y c.w c.h CONTENTBOX_COLOR 1 3 2 ∈
          contentBoxOps layers (some dg) el := by
        simp [contentBoxOps, hl, hc, hb]
      unfold elementOps
      exact List.mem_append.mpr (Or.inl (List.mem_append.mpr (Or.inr hmem)))
    · intro hmem
      unfold elementOps at hmem
      rw [List.mem_append, List.mem_append, List.mem_append] at hmem
      rcases hmem with ((h1 | h2) | h3) | h4
      · have := mem_bboxOps h1
        simp at this
      · have := mem_safeBoxOps h2
        simp [SAFEBOX_COLOR, OVERFLOW_COLOR] at this
      · simp [contentBoxOps, hl, hc, hb] at h3
      · have := mem_labelOps h4
        simp at this

/-- Example element with a contentBox, used by the C4 witness. -/
def c4Element : Element :=
  ⟨"t1", ⟨0, 0, 50, 20⟩, ⟨2, 2, 46, 16⟩, some ⟨4, 4, 40, 10⟩⟩

/-- Example diagnostics with one `content_overflow` defect on `"t1"`,
used by the C4 witness. -/
def c4Diag : Diag :=
  ⟨[⟨"content_overflow", some "t1", none, none, none⟩], {}⟩

/-- C4 witness: the defect on `"t1"` turns its contentBox outline red and
width 2. -/
theorem contentBox_overflow_highlight_witness :
    DrawOp.dashedRect 4 4 40 10 OVERFLOW_COLOR 2 3 2 ∈
        elementOps ["contentBox"] (some c4Diag) c4Element ∧
      DrawOp.dashedRect 4 4 40 10 CONTENTBOX_COLOR 1 3 2 ∉
        elementOps ["contentBox"] (some c4Diag) c4Element :=
  (contentBox_overflow_highlight ["contentBox"] c4Diag c4Element ⟨4, 4, 40, 10⟩
      rfl (by decide)).1
    ⟨⟨"content_overflow", some "t1", none, none, none⟩, by decide, rfl, Or.inl rfl⟩

/-- Elements with an empty-string eid and eid `"x"`, with distinct
bboxes; used for the C5 counterexample. -/
def c5Elements : List Element :=
  [⟨"", ⟨0, 0, 5, 5⟩, ⟨0, 0, 5, 5⟩, none⟩,
   ⟨"x", ⟨50, 50, 10, 10⟩, ⟨50, 50, 10, 10⟩, none⟩]

/-- A `content_overflow` defect whose `eid` field is present (the empty
string, which names an existing element) and whose `owner_eid` is `"x"`. -/
def c5Defect : Defect :=
  ⟨"content_overflow", some "", some "x", none, none⟩

/-- C5 counterexample: the defect's `eid` field is present and names an
element of the document, yet the annotation pass does not tint that
element's bbox — `defect.get("eid") or defect.get("owner_eid")` treats
the empty string as falsy and falls back to `owner_eid`, tinting the
bbox of `"x"` instead. -/
theorem overflowTint_eid_preference_counterexample :
    c5Defect.eid = some "" ∧
      (lookupEid c5Elements "").isSome = true ∧
      overflowTintOps c5Elements c5Defect =
        [DrawOp.filledRect 50 50 10 10 ⟨239, 68, 68, 30⟩] ∧
      DrawOp.filledRect 0 0 5 5 ⟨239, 68, 68, 30⟩ ∉
        overflowTintOps c5Elements c5Defect := by
  refine ⟨rfl, rfl, rfl, ?_⟩
  decide

/-- C5 (amended): the annotation pass resolves the element to tint as
`defect.get("eid") or defect.get("owner_eid")` — the `eid` field is
preferred only when present and non-empty (truthy), otherwise the
`owner_eid` field is used; when the resolved identifier matches an
element its full bbox is tinted, and when nothing resolves the defect is
skipped with no annotation. -/
theorem overflowTint_resolution (els : List Element) (d : Defect)
    (hd : d.type = "content_overflow") :
    (∀ s, d.eid = some s → s ≠ "" → pyTruthyOr d.eid d.owner_eid = some s) ∧
    ((d.eid = none ∨ d.eid = some "") →
      pyTruthyOr d.eid d.owner_eid = d.owner_eid) ∧
    (∀ el, (pyTruthyOr d.eid d.owner_eid).bind (lookupEid els) = some el →
      overflowTintOps els d =
        [DrawOp.filledRect el.bbox.x el.bbox.y el.bbox.w el.bbox.h
          ⟨239, 68, 68, 30⟩]) ∧
    ((pyTruthyOr d.eid d.owner_eid).bind (lookupEid els) = none →
      overflowTintOps els d = []) := by
  refine ⟨?_, ?_, ?_, ?_⟩
  · intro s hs hne
    simp [pyTruthyOr, hs, hne]
  · intro hcase
    rcases hcase with h | h <;> simp [pyTruthyOr, h]
  · intro el h
    simp [overflowTintOps, hd, h]
  · intro h
    simp [overflowTintOps, hd, h]

/-- C5 witness: a defect with a truthy `eid` that resolves tints that
element's bbox. -/
theorem overflowTint_resolution_witness :
    overflowTintOps [⟨"x", ⟨50, 50, 10, 10⟩, ⟨0, 0, 0, 0⟩, none⟩]
        ⟨"content_overflow", some "x", none, none, none⟩ =
      [DrawOp.filledRect 50 50 10 10 ⟨239, 68, 68, 30⟩] :=
  (overflowTint_resolution [⟨"x", ⟨50, 50, 10, 10⟩, ⟨0, 0, 0, 0⟩, none⟩]
      ⟨"content_overflow", some "x", none, none, none⟩ rfl).2.2.1
    ⟨"x", ⟨50, 50, 10, 10⟩, ⟨0, 0, 0, 0⟩, none⟩ (by decide)

/-- The filesystem view `run_batch` reads: whether the given path is a
directory, and the file names inside it. -/
structure FS where
  isDir : Bool
  files : List String
deriving DecidableEq

/-- Glob match of a file name against `dom_*.json` (a `*` wildcard
between a fixed name prefix and the extension). -/
def matchesDomGlob (name : String) : Bool :=
  "dom_".toList.isPrefixOf name.toList &&
    (".json".toList.reverse).isPrefixOf name.toList.reverse

/-- Regex search `re.search(r"dom_(\d+)\.json$", name)`: the captured digit group,
when the name ends in `dom_<digits>.json`. The digits are the maximal
digit run before `.json` (a digit run can only be preceded by `dom_` at
its start, so the leftmost regex match captures exactly this run). -/
def extractIndex (name : String) : Option String :=
  let cs := name.toList
  if (".json".toList.reverse).isPrefixOf cs.reverse then
    let stem := cs.take (cs.length - 5)
    let ds := (stem.reverse.takeWhile Char.isDigit).reverse
    if !ds.isEmpty &&
        ("dom_".toList.reverse).isPrefixOf
          ((stem.take (stem.length - ds.length)).reverse) then
      some (String.mk ds)
    else none
  else none

/-- Lexicographic code-point comparison of character lists (the order
Python's `sorted` uses on strings). -/
def charListLt : List Char → List Char → Bool
  | [], [] => false
  | [], _ :: _ => true
  | _ :: _, [] => false
  | a :: as, b :: bs =>
    if a < b then true else if b < a then false else charListLt as bs

/-- Lexicographic code-point comparison of strings. -/
def strLt (a b : String) : Bool := charListLt a.toList b.toList

/-- Insert a string into a sorted list (ascending). -/
def insertSorted (s : String) : List String → List String
  | [] => [s]
  | t :: ts => if strLt t s then t :: insertSorted s ts else s :: t :: ts

/-- Python `sorted(...)` on file names (ascending lexicographic). -/
def sortStrings : List String → List String
  | [] => []
  | s :: ss => insertSorted s (sortStrings ss)

/-- The list `sorted(rollout.glob("dom_*.json"))`. -/
def domFiles (fs : FS) : List String :=
  sortStrings (fs.files.filter matchesDomGlob)

/-- The name `f"render_{n}.png"`. -/
def renderName (n : String) : String := "render_" ++ n ++ ".png"

/-- The name `f"diag_{n}.json"`. -/
def diagName (n : String) : String := "diag_" ++ n ++ ".json"

/-- One observable outcome per batch iteration: either the logged skip
for a missing render image, or an invocation of `render_debug` (with or
without diagnostics). -/
inductive BatchEvent where
  | skip (n : String)
  | processed (n : String) (withDiag : Bool)
deriving DecidableEq

/-- The body of the `for dom_path in dom_files` loop for one file name:
nothing when the index regex does not match (`continue`), a skip when
`render_{n}.png` is absent, a processed event otherwise. -/
def batchItem (fs : FS) (name : String) : Option BatchEvent :=
  match extractIndex name with
  | none => none
  | some n =>
    if fs.files.contains (renderName n) then
      some (BatchEvent.processed n (fs.files.contains (diagName n)))
    else some (BatchEvent.skip n)

/-- The outcome of `run_batch`: the process exit status (`sys.exit(1)`
on the fail-fast guards, 0 on normal return) and the per-item events. -/
structure BatchResult where
  exitCode : ℕ
  events : List BatchEvent
deriving DecidableEq

/-- Function `run_batch(rollout_dir)`: fail fast when the path is not a directory
or no `dom_*.json` file exists; otherwise process every discovered dom
file in sorted order. -/
def run_batch (fs : FS) : BatchResult :=
  if !fs.isDir then ⟨1, []⟩
  else if domFiles fs = [] then ⟨1, []⟩
  else ⟨0, (domFiles fs).filterMap (batchItem fs)⟩

theorem mem_insertSorted (s a : String) (l : List String) :
    a ∈ insertSorted s l ↔ a = s ∨ a ∈ l := by
  induction l with
  | nil => simp [insertSorted]
  | cons t ts ih =>
    unfold insertSorted
    split
    · simp only [List.mem_cons, ih]
      tauto
    · simp only [List.mem_cons]

theorem mem_sortStrings (a : String) (l : List String) :
    a ∈ sortStrings l ↔ a ∈ l := by
  induction l with
  | nil => simp [sortStrings]
  | cons t ts ih => simp [sortStrings, mem_insertSorted, ih]

/-- C7: the batch driver terminates the whole run with a non-zero exit
status, before processing any item, exactly when the path is not a
directory or no file matches the `dom_*.json` discovery pattern; in
every other case the run exits with status zero. -/
theorem run_batch_fail_fast (fs : FS) :
    (fs.isDir = false → run_batch fs = ⟨1, []⟩) ∧
    (fs.isDir = true → domFiles fs = [] → run_batch fs = ⟨1, []⟩) ∧
    (fs.isDir = true → domFiles fs ≠ [] → (run_batch fs).exitCode = 0) := by
  refine ⟨?_, ?_, ?_⟩
  · intro h
    simp [run_batch, h]
  · intro h1 h2
    simp [run_batch, h1, h2]
  · intro h1 h2
    simp [run_batch, h1, h2]

/-- C7 witness: a non-directory, a directory with no matching dom file,
and a directory with one. -/
theorem run_batch_fail_fast_witness :
    run_batch ⟨false, []⟩ = ⟨1, []⟩ ∧
      run_batch ⟨true, ["readme.txt"]⟩ = ⟨1, []⟩ ∧
      (run_batch ⟨true, ["dom_0.json", "render_0.png"]⟩).exitCode = 0 :=
  ⟨(run_batch_fail_fast ⟨false, []⟩).1 rfl,
   (run_batch_fail_fast ⟨true, ["readme.txt"]⟩).2.1 rfl (by decide),
   (run_batch_fail_fast ⟨true, ["dom_0.json", "render_0.png"]⟩).2.2 rfl
     (by decide)⟩

/-- C8: in batch mode, every discovered dom index whose render image is
absent yields a logged skip, while every discovered index with a render
image present is still processed (so the loop continues past skips), and
the run exits with status zero. -/
theorem run_batch_skips (fs : FS) (h1 : fs.isDir = true)
    (h2 : domFiles fs ≠ []) :
    (run_batch fs).exitCode = 0 ∧
    ∀ name ∈ domFiles fs, ∀ n, extractIndex name = some n →
      (fs.files.contains (renderName n) = false →
        BatchEvent.skip n ∈ (run_batch fs).events) ∧
      (fs.files.contains (renderName n) = true →
        BatchEvent.processed n (fs.files.contains (diagName n)) ∈
          (run_batch fs).events) := by
  have hrun : run_batch fs = ⟨0, (domFiles fs).filterMap (batchItem fs)⟩ := by
    simp [run_batch, h1, h2]
  refine ⟨by rw [hrun], ?_⟩
  intro name hname n hn
  constructor
  · intro habs
    have habs2 : renderName n ∉ fs.files := by simpa using habs
    rw [hrun]
    refine List.mem_filterMap.mpr ⟨name, hname, ?_⟩
    simp [batchItem, hn, habs2]
  · intro hpres
    have hpres2 : renderName n ∈ fs.files := by simpa using hpres
    rw [hrun]
    refine List.mem_filterMap.mpr ⟨name, hname, ?_⟩
    simp [batchItem, hn, hpres2]

/-- C8 witness: `dom_0.json` with its render is processed, `dom_1.json`
without one is skipped, and the run still exits with status zero. -/
theorem run_batch_skips_witness :
    (run_batch ⟨true, ["dom_0.json", "render_0.png", "dom_1.json"]⟩).exitCode
        = 0 ∧
      BatchEvent.skip "1" ∈
        (run_batch ⟨true, ["dom_0.json", "render_0.png", "dom_1.json"]⟩).events ∧
      BatchEvent.processed "0" false ∈
        (run_batch ⟨true, ["dom_0.json", "render_0.png", "dom_1.json"]⟩).events :=
  ⟨(run_batch_skips ⟨true, ["dom_0.json", "render_0.png", "dom_1.json"]⟩ rfl
      (by decide)).1,
   ((run_batch_skips ⟨true, ["dom_0.json", "render_0.png", "dom_1.json"]⟩ rfl
      (by decide)).2 "dom_1.json" (by decide) "1" (by decide)).1 (by decide),
   ((run_batch_skips ⟨true, ["dom_0.json", "render_0.png", "dom_1.json"]⟩ rfl
      (by decide)).2 "dom_0.json" (by decide) "0" (by decide)).2 (by decide)⟩

/-- Python `str.replace(old, new)` on character lists: replace every
non-overlapping occurrence, scanning left to right. (The `pat ≠ []`
guard only keeps the recursion well-founded; `render_debug` always
replaces the nonempty `"render_"`.) -/
def replaceAll (pat repl : List Char) : List Char → List Char
  | [] => []
  | c :: rest =>
    if h : pat ≠ [] ∧ pat.isPrefixOf (c :: rest) then
      repl ++ replaceAll pat repl ((c :: rest).drop pat.length)
    else c :: replaceAll pat repl rest
termination_by s => s.length
decreasing_by
  · simp only [List.length_drop, List.length_cons]
    have hp : 0 < pat.length := List.length_pos.mpr h.1
    omega
  · simp only [List.length_cons]
    omega

/-- Whether `pat` occurs as a contiguous substring of `s` (Python `in`). -/
def containsSub (pat : List Char) : List Char → Bool
  | [] => pat.isEmpty
  | c :: rest => pat.isPrefixOf (c :: rest) || containsSub pat rest

/-- The default output path of `render_debug` (as directory and name):
`rp.parent / rp.name.replace("render_", "debug_")`. -/
def defaultOutputPath (parent name : String) : String × String :=
  (parent, String.mk (replaceAll "render_".toList "debug_".toList name.toList))

theorem replaceAll_no_occurrence (pat repl s : List Char)
    (h : containsSub pat s = false) : replaceAll pat repl s = s := by
  induction s with
  | nil => rw [replaceAll]
  | cons c rest ih =>
    simp only [containsSub, Bool.or_eq_false_iff] at h
    have hcond : ¬ (pat ≠ [] ∧ pat.isPrefixOf (c :: rest) = true) := by
      intro hc
      rw [h.1] at hc
      exact Bool.false_ne_true hc.2
    unfold replaceAll
    rw [dif_neg hcond, ih h.2]

/-- C9: the default output path is the render image's name with every
occurrence of `"render_"` replaced by `"debug_"`, in the same directory;
consequently, when the input name does not contain `"render_"`, the
derived output path equals the input path, so saving the result
overwrites the input render image. -/
theorem defaultOutputPath_overwrites (parent name : String)
    (h : containsSub "render_".toList name.toList = false) :
    defaultOutputPath parent name = (parent, name) := by
  unfold defaultOutputPath
  rw [replaceAll_no_occurrence _ _ _ h]
  rfl

/-- C9 witness: a render image named without the `"render_"` substring. -/
theorem defaultOutputPath_overwrites_witness :
    defaultOutputPath "rollouts" "shot_7.png" = ("rollouts", "shot_7.png") :=
  defaultOutputPath_overwrites "rollouts" "shot_7.png" (by decide)
